import Mathlib

/-!
# Verification of the alpha_vantage crypto module

A shallow embedding of `src/crypto.rs`, `src/api.rs`, `src/client.rs` and
`src/user.rs` of the `alpha_vantage` Rust crate, together with theorems
settling the specified properties of the decode pipeline, the entry-collection
operations and the URL construction.

Modelling conventions:
* Rust `HashMap` values reached only through iteration are modelled as
  association lists, iterated in list order (HashMap iteration order is
  unspecified in Rust; every claim proved here is insensitive to that order,
  and concrete counterexamples use singleton maps where the order is forced).
* Rust `f64` values are modelled as exact rationals `ℚ`; the numeric strings
  appearing in concrete inputs all denote dyadic fractions, for which the
  model agrees with binary floating point.
* Fallible Rust code (`Result`) is modelled with an explicit outcome type
  that also has a `panicked` alternative for the `unwrap`/`expect` calls in
  the source, so that panics are visible in the model.
-/

/-- Error type of the crate (`src/error.rs` is not part of the provided
sources; the variants used by the provided files are `EmptyResponse`,
`DesiredNumberOfEntryNotPresent`, `DecodeJsonToStruct` and
`GetRequestFailed`, and the three sentinel variants are modelled from the
spec: a "request rejected" error, a "rate limited" error and an
"empty/no-data" error, each carrying the upstream message). -/
inductive Error where
  /-- "request rejected" error carrying the upstream `Error Message` string -/
  | ErrorMessage (msg : String)
  /-- "rate limited / throttled" error carrying the upstream `Note` string -/
  | Note (msg : String)
  /-- "empty/no-data" error carrying the upstream `Information` string -/
  | Information (msg : String)
  /-- required payload section absent despite no sentinel -/
  | EmptyResponse
  /-- `latest_n` requested more entries than present; carries the count -/
  | DesiredNumberOfEntryNotPresent (count : Nat)
  /-- response body did not deserialize into the helper struct -/
  | DecodeJsonToStruct
  /-- transport failure -/
  | GetRequestFailed
deriving DecidableEq

/-- Outcome of running a fallible Rust function, with panics explicit. -/
inductive ConvOutcome (α : Type) where
  | ok (val : α)
  | err (e : Error)
  | panicked
deriving DecidableEq

/-- `MetaData` struct of `src/crypto.rs` (the seven meta strings). -/
structure MetaData where
  information : String
  digital_code : String
  digital_name : String
  market_code : String
  market_name : String
  last_refreshed : String
  time_zone : String
deriving DecidableEq

/-- `Entry` struct of `src/crypto.rs`: one typed record of the series.
`f64` fields are modelled as `ℚ`. -/
structure Entry where
  time : String
  market_open : ℚ
  usd_open : ℚ
  market_high : ℚ
  usd_high : ℚ
  market_low : ℚ
  usd_low : ℚ
  market_close : ℚ
  usd_close : ℚ
  volume : ℚ
  market_cap : ℚ
deriving DecidableEq

/-- `Entry::default()`: `Default` is derived in the source, so every field
takes its type's default (`""` for the time, `0.0` for the numbers). -/
def Entry.default : Entry :=
  { time := "", market_open := 0, usd_open := 0, market_high := 0,
    usd_high := 0, market_low := 0, usd_low := 0, market_close := 0,
    usd_close := 0, volume := 0, market_cap := 0 }

/-- `EntryHelper` struct of `src/crypto.rs`: the six USD/volume fields are
deserialized to numbers by serde; the `#[serde(flatten)]` remainder
(`market_data : HashMap<String, String>`) is modelled as an association
list. -/
structure EntryHelper where
  open_usd : ℚ
  high_usd : ℚ
  low_usd : ℚ
  close_usd : ℚ
  volume : ℚ
  market_cap : ℚ
  market_data : List (String × String)
deriving DecidableEq

/-- `CryptoHelper` struct of `src/crypto.rs`: the three optional sentinel
strings, the optional meta-data block, and the flattened optional map of
per-timestamp records (modelled as a nested association list). -/
structure CryptoHelper where
  information : Option String
  error_message : Option String
  note : Option String
  meta_data : Option MetaData
  entry : Option (List (String × List (String × EntryHelper)))
deriving DecidableEq

/-- `Crypto` public struct of `src/crypto.rs`. -/
structure Crypto where
  meta_data : MetaData
  entry : List Entry
deriving DecidableEq

/-- Digit list to number; fails on a non-digit; fails on the empty list. -/
def digitsToNat (cs : List Char) : Option Nat :=
  if cs.isEmpty then none
  else cs.foldl
    (fun acc c => acc.bind fun n =>
      if c.isDigit then some (10 * n + (c.toNat - 48)) else none)
    (some 0)

/-- Split a character list at every occurrence of the character `c`. -/
def splitOnChar (c : Char) : List Char → List (List Char)
  | [] => [[]]
  | x :: xs =>
    if x = c then [] :: splitOnChar c xs
    else
      match splitOnChar c xs with
      | [] => [[x]]
      | h :: t => (x :: h) :: t

/-- Modelled from the source's use of `f64::from_str` (the `FromStr`
implementation itself is library code outside this repository): parses an
optional sign followed by plain decimal digits with an optional single
decimal point, to an exact rational; strings outside this grammar
(in particular non-numeric strings such as `"abc"`) fail, exactly as
`f64::from_str` fails on them. Exponent and non-finite forms accepted by
`f64::from_str` are outside the grammar and outside every input considered
here. -/
def parseF64 (s : String) : Option ℚ :=
  let signed : Int × List Char :=
    match s.data with
    | '-' :: rest => (-1, rest)
    | '+' :: rest => (1, rest)
    | rest => (1, rest)
  match splitOnChar '.' signed.2 with
  | [ip] => (digitsToNat ip).map fun n => mkRat (signed.1 * n) 1
  | [ip, fp] =>
    if ip.isEmpty && fp.isEmpty then none
    else
      match (if ip.isEmpty then some 0 else digitsToNat ip),
            (if fp.isEmpty then some 0 else digitsToNat fp) with
      | some a, some b =>
        some (mkRat (signed.1 * (a * 10 ^ fp.length + b)) (10 ^ fp.length))
      | _, _ => none
  | _ => none

/-- `pat` is a leading segment of `s` (both as character lists). -/
def leadsWith : List Char → List Char → Bool
  | _, [] => true
  | [], _ :: _ => false
  | a :: as, b :: bs => (a = b) && leadsWith as bs

/-- `pat` occurs as a contiguous segment of `s`. -/
def containsSeg (s pat : List Char) : Bool :=
  match s with
  | [] => pat.isEmpty
  | _ :: rest => leadsWith s pat || containsSeg rest pat

/-- Rust `str::contains`: the pattern occurs as a substring. -/
def strContains (s pat : String) : Bool :=
  containsSeg s.data pat.data

/-- Modelled from the spec: `detect_common_helper_error` lives in
`src/error.rs`, which is not among the provided sources; per the spec's
decode contract the checks run in order — `error_message` first ("request
rejected"), then `note` ("rate limited"), then `information`
("empty/no-data") — each returning the corresponding error carrying the
message, and succeeding only when all three are absent. -/
def detect_common_helper_error (information error_message note : Option String) :
    Except Error Unit :=
  match error_message with
  | some msg => .error (.ErrorMessage msg)
  | none =>
    match note with
    | some msg => .error (.Note msg)
    | none =>
      match information with
      | some msg => .error (.Information msg)
      | none => .ok ()

/-- One step of the `market_data` loop in `CryptoHelper::convert`: the value
is parsed with `f64::from_str(value).unwrap()` (a parse failure is a panic,
modelled as `none`), then assigned to the market field selected by the
`contains` checks on the key; keys matching none of `1a`/`2a`/`3a`/`4a`
still have their value parsed but assign nothing. -/
def applyMarketDatum (e : Entry) (kv : String × String) : Option Entry :=
  match parseF64 kv.2 with
  | none => none
  | some v =>
    if strContains kv.1 "1a" then some { e with market_open := v }
    else if strContains kv.1 "2a" then some { e with market_high := v }
    else if strContains kv.1 "3a" then some { e with market_low := v }
    else if strContains kv.1 "4a" then some { e with market_close := v }
    else some e

/-- Body of the per-record part of `CryptoHelper::convert`: build the entry
from the helper's USD fields with the remaining fields defaulted, then fold
the `market_data` pairs. -/
def convertEntry (time : String) (eh : EntryHelper) : Option Entry :=
  let base : Entry :=
    { Entry.default with
      time := time,
      usd_open := eh.open_usd, usd_high := eh.high_usd,
      usd_low := eh.low_usd, usd_close := eh.close_usd,
      market_cap := eh.market_cap, volume := eh.volume }
  eh.market_data.foldl (fun acc kv => acc.bind fun e => applyMarketDatum e kv)
    (some base)

/-- Inner loop of `CryptoHelper::convert`: one entry per timestamp key of a
per-series map, in iteration order. -/
def convertInner (l : List (String × EntryHelper)) : Option (List Entry) :=
  match l with
  | [] => some []
  | (k, eh) :: rest =>
    match convertEntry k eh, convertInner rest with
    | some e, some es => some (e :: es)
    | _, _ => none

/-- Outer loop of `CryptoHelper::convert` over the values of the flattened
map of series. -/
def convertAll (outer : List (String × List (String × EntryHelper))) :
    Option (List Entry) :=
  match outer with
  | [] => some []
  | (_, inner) :: rest =>
    match convertInner inner, convertAll rest with
    | some es, some rs => some (es ++ rs)
    | _, _ => none

/-- `CryptoHelper::convert` of `src/crypto.rs`: run the shared sentinel
check, then require both the meta-data block and the entry map, then run the
structural conversion (whose `unwrap` on a malformed numeric string is a
panic). -/
def CryptoHelper.convert (h : CryptoHelper) : ConvOutcome Crypto :=
  match detect_common_helper_error h.information h.error_message h.note with
  | .error e => .err e
  | .ok _ =>
    match h.meta_data, h.entry with
    | some md, some ent =>
      match convertAll ent with
      | some ve => .ok { meta_data := md, entry := ve }
      | none => .panicked
    | some _, none => .err .EmptyResponse
    | none, _ => .err .EmptyResponse

/-- Lexicographic strict order on character lists: Rust's `Ord` on `str`
compares the UTF-8 bytes lexicographically, which coincides with the
lexicographic order on Unicode scalar values. -/
def charsLt : List Char → List Char → Bool
  | _, [] => false
  | [], _ :: _ => true
  | a :: as, b :: bs =>
    if a < b then true
    else if b < a then false
    else charsLt as bs

/-- Rust `<` on strings (byte-lexicographic). -/
def strLtB (a b : String) : Bool :=
  charsLt a.data b.data

/-- Rust `<=` on strings. -/
def strLeB (a b : String) : Bool :=
  ! strLtB b a

/-- `VecEntry::find` of `src/crypto.rs`: first entry whose time equals the
given string. -/
def VecEntry.find (l : List Entry) (time : String) : Option Entry :=
  l.find? fun entry => entry.time == time

/-- `VecEntry::latest` of `src/crypto.rs`: start from `&Entry::default()`
and keep the entry whenever the current best's time is strictly less. -/
def VecEntry.latest (l : List Entry) : Entry :=
  l.foldl (fun best entry => if strLtB best.time entry.time then entry else best)
    Entry.default

/-- Lookup loop of `VecEntry::latest_n`: `find` each requested time; a
failing lookup would be a failing `unwrap`, i.e. a panic, modelled as
`none`. -/
def collectEntries (l : List Entry) : List String → Option (List Entry)
  | [] => some []
  | t :: ts =>
    match VecEntry.find l t, collectEntries l ts with
    | some e, some es => some (e :: es)
    | _, _ => none

/-- `VecEntry::latest_n` of `src/crypto.rs`: sort the times descending
(stable, as Rust's `sort_by_key` with `Reverse`), fail when `n` exceeds the
count, else look each of the top `n` times up with `find(..).unwrap()` (a
failing `unwrap` is a panic, modelled as `panicked`). -/
def VecEntry.latest_n (l : List Entry) (n : Nat) : ConvOutcome (List Entry) :=
  let time_list := (l.map Entry.time).insertionSort (fun a b => strLeB b a = true)
  if n > time_list.length then
    .err (.DesiredNumberOfEntryNotPresent time_list.length)
  else
    match collectEntries l (time_list.take n) with
    | some res => .ok res
    | none => .panicked

/-- `CryptoFunction` enum of `src/crypto.rs`. -/
inductive CryptoFunction where
  | Daily
  | Weekly
  | Monthly
deriving DecidableEq

/-- `Provider` enum of `src/api.rs`. -/
inductive Provider where
  | AlphaVantage
  | RapidAPI
deriving DecidableEq

/-- Base URL constant of `src/api.rs`. -/
def BASE_URL : String := "https://www.alphavantage.co/"

/-- RapidAPI base URL constant of `src/api.rs`. -/
def RAPID_API_BASE_URL : String := "https://alpha-vantage.p.rapidapi.com/query"

/-- Function-name match of `CryptoBuilder::create_url`. -/
def cryptoFunctionName : CryptoFunction → String
  | .Daily => "DIGITAL_CURRENCY_DAILY"
  | .Weekly => "DIGITAL_CURRENCY_WEEKLY"
  | .Monthly => "DIGITAL_CURRENCY_MONTHLY"

/-- `CryptoBuilder::create_url` of `src/crypto.rs`. -/
def create_url (function : CryptoFunction) (symbol market : String) : String :=
  "query?function=" ++ cryptoFunctionName function ++ "&symbol=" ++ symbol ++
    "&market=" ++ market

/-- An outbound HTTP GET request: final URL plus headers. -/
structure HttpRequest where
  url : String
  headers : List (String × String)
deriving DecidableEq

/-- The request issued by `ApiClient::get_json` of `src/api.rs` for a given
provider, API key and endpoint path: in direct mode the key is appended as
the `apikey` query parameter; in proxied mode the URL is the fixed RapidAPI
base plus the path and the key travels in the `x-rapidapi-key` header next
to the fixed `x-rapidapi-host` header (`src/client.rs`). -/
def requestFor (provider : Provider) (api path : String) : HttpRequest :=
  match provider with
  | .AlphaVantage => { url := BASE_URL ++ path ++ "&apikey=" ++ api, headers := [] }
  | .RapidAPI =>
    { url := RAPID_API_BASE_URL ++ path,
      headers := [("x-rapidapi-host", "alpha-vantage.p.rapidapi.com"),
                  ("x-rapidapi-key", api)] }

/-- `ApiClient` of `src/api.rs`; the boxed transport is an arbitrary type
parameter since no credential operation inspects it. -/
structure ApiClient (C : Type) where
  api : String
  client : C
  provider : Provider

/-- `ApiClient::set_api`: store the key and the direct provider. -/
def ApiClient.set_api {C : Type} (api : String) (client : C) : ApiClient C :=
  { api := api, client := client, provider := .AlphaVantage }

/-- `ApiClient::set_rapid_api`: store the key and the RapidAPI provider. -/
def ApiClient.set_rapid_api {C : Type} (api : String) (client : C) : ApiClient C :=
  { api := api, client := client, provider := .RapidAPI }

/-- `ApiClient::get_api_key`. -/
def ApiClient.get_api_key {C : Type} (a : ApiClient C) : String :=
  a.api

/-- `APIKey` tuple struct of `src/user.rs`. -/
structure APIKey where
  key : String
deriving DecidableEq

/-- `APIKey::set_api` of `src/user.rs`. -/
def APIKey.set_api (api : String) : APIKey :=
  { key := api }

/-- `APIKey::get_api` of `src/user.rs` (`clone` of the stored string). -/
def APIKey.get_api (a : APIKey) : String :=
  a.key

/-! ## Shared concrete data -/

/-- A concrete meta-data block, as the upstream API returns for BTC/CNY. -/
def sampleMeta : MetaData :=
  { information := "Daily Prices and Volumes for Digital Currency",
    digital_code := "BTC", digital_name := "Bitcoin",
    market_code := "CNY", market_name := "Chinese Yuan",
    last_refreshed := "2020-01-02 00:00:00", time_zone := "UTC" }

/-- Helper record keyed `2020-01-01`: the six serde-parsed numeric fields
(parsed strings shown) plus four flattened market-data string fields. -/
def sampleEH1 : EntryHelper :=
  { open_usd := (parseF64 "100.5").getD 0, high_usd := (parseF64 "101.25").getD 0,
    low_usd := (parseF64 "99.75").getD 0, close_usd := (parseF64 "100.0").getD 0,
    volume := (parseF64 "1000.5").getD 0, market_cap := (parseF64 "2000.25").getD 0,
    market_data := [("1a. open (CNY)", "700.5"), ("2a. high (CNY)", "710.25"),
                    ("3a. low (CNY)", "690.75"), ("4a. close (CNY)", "705.5")] }

/-- Helper record keyed `2020-01-02`. -/
def sampleEH2 : EntryHelper :=
  { open_usd := (parseF64 "100.0").getD 0, high_usd := (parseF64 "102.5").getD 0,
    low_usd := (parseF64 "98.25").getD 0, close_usd := (parseF64 "101.75").getD 0,
    volume := (parseF64 "1500.25").getD 0, market_cap := (parseF64 "3000.5").getD 0,
    market_data := [("1a. open (CNY)", "705.5"), ("2a. high (CNY)", "715.25"),
                    ("3a. low (CNY)", "688.5"), ("4a. close (CNY)", "709.75")] }

/-- The decoded form of a sample JSON body with two timestamped records. -/
def sampleHelper : CryptoHelper :=
  { information := none, error_message := none, note := none,
    meta_data := some sampleMeta,
    entry := some [("Time Series (Digital Currency Daily)",
                    [("2020-01-01", sampleEH1), ("2020-01-02", sampleEH2)])] }

/-- Expected converted record for `2020-01-01`. -/
def sampleEntry1 : Entry :=
  { time := "2020-01-01", market_open := mkRat 1401 2, usd_open := mkRat 201 2,
    market_high := mkRat 2841 4, usd_high := mkRat 405 4, market_low := mkRat 2763 4,
    usd_low := mkRat 399 4, market_close := mkRat 1411 2, usd_close := 100,
    volume := mkRat 2001 2, market_cap := mkRat 8001 4 }

/-- Expected converted record for `2020-01-02`. -/
def sampleEntry2 : Entry :=
  { time := "2020-01-02", market_open := mkRat 1411 2, usd_open := 100,
    market_high := mkRat 2861 4, usd_high := mkRat 205 2, market_low := mkRat 1377 2,
    usd_low := mkRat 393 4, market_close := mkRat 2839 4, usd_close := mkRat 407 4,
    volume := mkRat 6001 4, market_cap := mkRat 6001 2 }

/-- Expected public struct for the sample body. -/
def sampleCrypto : Crypto :=
  { meta_data := sampleMeta, entry := [sampleEntry1, sampleEntry2] }

/-- Two small demo entries used to instantiate universally quantified
theorems at concrete inputs. -/
def demoE1 : Entry := { Entry.default with time := "2020-01-01", usd_open := 1 }

def demoE2 : Entry := { Entry.default with time := "2020-01-02", usd_open := 2 }

/-! ## Properties of the lexicographic string order -/

theorem charsLt_irrefl : ∀ l : List Char, charsLt l l = false
  | [] => rfl
  | a :: as => by simp [charsLt, lt_irrefl, charsLt_irrefl as]

theorem charsLt_trans (a : List Char) :
    ∀ b c, charsLt a b = true → charsLt b c = true → charsLt a c = true := by
  induction a with
  | nil =>
    intro b c h1 h2
    cases c with
    | nil => cases b <;> simp [charsLt] at h2
    | cons z zs => simp [charsLt]
  | cons x xs ih =>
    intro b c h1 h2
    cases b with
    | nil => simp [charsLt] at h1
    | cons y ys =>
      cases c with
      | nil => simp [charsLt] at h2
      | cons z zs =>
        simp only [charsLt] at h1 h2 ⊢
        by_cases hxy : x < y
        · simp only [hxy, if_true] at h1
          by_cases hyz : y < z
          · simp [lt_trans hxy hyz]
          · by_cases hzy : z < y
            · simp [hyz, hzy] at h2
            · have hyz' : y = z := le_antisymm (not_lt.mp hzy) (not_lt.mp hyz)
              subst hyz'
              simp [hxy]
        · by_cases hyx : y < x
          · simp [hxy, hyx] at h1
          · have hxy' : x = y := le_antisymm (not_lt.mp hyx) (not_lt.mp hxy)
            subst hxy'
            simp only [if_neg hxy, lt_irrefl, if_false] at h1
            by_cases hyz : x < z
            · simp [hyz]
            · by_cases hzy : z < x
              · simp [hyz, hzy] at h2
              · have hyz' : x = z := le_antisymm (not_lt.mp hzy) (not_lt.mp hyz)
                subst hyz'
                simp only [if_neg hyz, lt_irrefl, if_false] at h2 ⊢
                exact ih ys zs h1 h2

theorem charsLt_connex (a : List Char) :
    ∀ b, charsLt a b = false → charsLt b a = false → a = b := by
  induction a with
  | nil =>
    intro b h1 _
    cases b with
    | nil => rfl
    | cons z zs => simp [charsLt] at h1
  | cons x xs ih =>
    intro b h1 h2
    cases b with
    | nil => simp [charsLt] at h2
    | cons y ys =>
      simp only [charsLt] at h1 h2
      by_cases hxy : x < y
      · simp [hxy] at h1
      · by_cases hyx : y < x
        · simp [hxy, hyx] at h2
        · have hxy' : x = y := le_antisymm (not_lt.mp hyx) (not_lt.mp hxy)
          subst hxy'
          simp only [if_neg hxy, lt_irrefl, if_false] at h1 h2
          rw [ih ys h1 h2]

theorem strLtB_irrefl (s : String) : strLtB s s = false :=
  charsLt_irrefl s.data

theorem strLtB_trans {a b c : String} (h1 : strLtB a b = true)
    (h2 : strLtB b c = true) : strLtB a c = true :=
  charsLt_trans a.data b.data c.data h1 h2

theorem strLtB_connex {a b : String} (h1 : strLtB a b = false)
    (h2 : strLtB b a = false) : a = b := by
  have h := charsLt_connex a.data b.data h1 h2
  cases a; cases b
  exact congrArg String.mk h

theorem strLtB_asymm {a b : String} (h : strLtB a b = true) :
    strLtB b a = false := by
  cases hb : strLtB b a with
  | false => rfl
  | true =>
    have := strLtB_trans h hb
    rw [strLtB_irrefl] at this
    exact absurd this (by simp)

theorem strLeB_refl (a : String) : strLeB a a = true := by
  simp [strLeB, strLtB_irrefl]

theorem strLeB_of_lt {a b : String} (h : strLtB a b = true) :
    strLeB a b = true := by
  simp [strLeB, strLtB_asymm h]

theorem strLeB_of_not_lt {a b : String} (h : strLtB b a = false) :
    strLeB a b = true := by
  simp [strLeB, h]

theorem strLeB_total (a b : String) : strLeB a b = true ∨ strLeB b a = true := by
  cases h : strLtB b a with
  | false => exact Or.inl (strLeB_of_not_lt h)
  | true => exact Or.inr (strLeB_of_lt h)

theorem strLeB_trans {a b c : String} (h1 : strLeB a b = true)
    (h2 : strLeB b c = true) : strLeB a c = true := by
  simp only [strLeB, Bool.not_eq_true'] at h1 h2 ⊢
  cases hca : strLtB c a with
  | false => rfl
  | true =>
    cases hab : strLtB a b with
    | false =>
      have hba : a = b := strLtB_connex hab h1
      subst hba
      rw [hca] at h2
      exact h2
    | true =>
      have := strLtB_trans hca hab
      rw [this] at h2
      exact h2

/-! ## Facts about the fold inside `VecEntry::latest` -/

theorem latest_fold_mem (l : List Entry) :
    ∀ acc : Entry,
      l.foldl (fun best entry => if strLtB best.time entry.time then entry else best) acc = acc ∨
      l.foldl (fun best entry => if strLtB best.time entry.time then entry else best) acc ∈ l := by
  induction l with
  | nil => intro acc; exact Or.inl rfl
  | cons e es ih =>
    intro acc
    rw [List.foldl_cons]
    rcases ih (if strLtB acc.time e.time then e else acc) with h | h
    · rw [h]
      by_cases hc : strLtB acc.time e.time = true
      · right; simp [hc]
      · left; simp [hc]
    · right; exact List.mem_cons_of_mem e h

theorem latest_fold_le (l : List Entry) :
    ∀ acc : Entry,
      strLeB acc.time
        (l.foldl (fun best entry => if strLtB best.time entry.time then entry else best) acc).time
        = true ∧
      ∀ e ∈ l,
        strLeB e.time
          (l.foldl (fun best entry => if strLtB best.time entry.time then entry else best) acc).time
          = true := by
  induction l with
  | nil =>
    intro acc
    exact ⟨strLeB_refl _, by intro e he; cases he⟩
  | cons e es ih =>
    intro acc
    rw [List.foldl_cons]
    obtain ⟨ihacc, ihall⟩ := ih (if strLtB acc.time e.time then e else acc)
    have hstep : strLeB acc.time (if strLtB acc.time e.time then e else acc).time = true := by
      by_cases hc : strLtB acc.time e.time = true
      · simp only [hc, if_true]; exact strLeB_of_lt hc
      · simp only [hc, if_false]; exact strLeB_refl _
    have hstep_e : strLeB e.time (if strLtB acc.time e.time then e else acc).time = true := by
      by_cases hc : strLtB acc.time e.time = true
      · simp only [hc, if_true]; exact strLeB_refl _
      · simp only [hc, if_false]
        exact strLeB_of_not_lt (by simpa using hc)
    refine ⟨strLeB_trans hstep ihacc, ?_⟩
    intro x hx
    rcases List.mem_cons.mp hx with hx | hx
    · subst hx; exact strLeB_trans hstep_e ihacc
    · exact ihall x hx

theorem latest_fold_default_of_empty_times (l : List Entry)
    (h : ∀ e ∈ l, e.time = "") :
    l.foldl (fun best entry => if strLtB best.time entry.time then entry else best)
      Entry.default = Entry.default := by
  induction l with
  | nil => rfl
  | cons e es ih =>
    rw [List.foldl_cons]
    have he : e.time = "" := h e (List.mem_cons_self e es)
    have : strLtB Entry.default.time e.time = false := by
      rw [he]; exact strLtB_irrefl ""
    rw [this]
    simp only [Bool.false_eq_true, if_false]
    exact ih fun x hx => h x (List.mem_cons_of_mem e hx)

/-! ## Shared concrete helpers for witnesses -/

/-- Demo entry collection. -/
def demoEntries : List Entry := [demoE1, demoE2]

/-- A helper payload with all three sentinels AND a full payload present. -/
def errHelper : CryptoHelper :=
  { information := some "some informational text",
    error_message := some "Invalid API call",
    note := some "please slow down",
    meta_data := some sampleMeta,
    entry := some [("Time Series (Digital Currency Daily)",
                    [("2020-01-01", sampleEH1)])] }

/-- A helper payload with no sentinel and no payload section at all. -/
def emptyHelper : CryptoHelper :=
  { information := none, error_message := none, note := none,
    meta_data := none, entry := none }

/-- C1: for every decoded helper payload the sentinel checks run in a
fixed precedence before any structural conversion: `error_message` first
(request rejected), then `note` (rate limited), then `information`
(empty/no-data); whenever one fires the decode yields that error, so the
structural conversion is never attempted. -/
theorem sentinel_precedence (h : CryptoHelper) :
    (∀ msg, h.error_message = some msg →
        h.convert = ConvOutcome.err (Error.ErrorMessage msg)) ∧
    (h.error_message = none → ∀ msg, h.note = some msg →
        h.convert = ConvOutcome.err (Error.Note msg)) ∧
    (h.error_message = none → h.note = none → ∀ msg, h.information = some msg →
        h.convert = ConvOutcome.err (Error.Information msg)) := by
  refine ⟨?_, ?_, ?_⟩
  · intro msg hmsg
    simp [CryptoHelper.convert, detect_common_helper_error, hmsg]
  · intro he msg hmsg
    simp [CryptoHelper.convert, detect_common_helper_error, he, hmsg]
  · intro he hn msg hmsg
    simp [CryptoHelper.convert, detect_common_helper_error, he, hn, hmsg]

/-- Witness for C1: a payload carrying all three sentinels and a full
payload section decodes to the rejection error with the exact message. -/
theorem sentinel_precedence_witness :
    errHelper.convert = ConvOutcome.err (Error.ErrorMessage "Invalid API call") :=
  (sentinel_precedence errHelper).1 "Invalid API call" rfl

/-- C2: with all three sentinels unset, a missing meta-data block or a
missing entry collection makes the conversion fail with the "empty
response" error. -/
theorem empty_response_spec (h : CryptoHelper)
    (hi : h.information = none) (he : h.error_message = none)
    (hn : h.note = none) (hmiss : h.meta_data = none ∨ h.entry = none) :
    h.convert = ConvOutcome.err Error.EmptyResponse := by
  rcases hmiss with hm | hen
  · simp [CryptoHelper.convert, detect_common_helper_error, hi, he, hn, hm]
  · cases hm2 : h.meta_data with
    | none => simp [CryptoHelper.convert, detect_common_helper_error, hi, he, hn, hm2]
    | some md =>
      simp [CryptoHelper.convert, detect_common_helper_error, hi, he, hn, hm2, hen]

/-- Witness for C2 at the fully-empty helper payload. -/
theorem empty_response_witness :
    emptyHelper.convert = ConvOutcome.err Error.EmptyResponse :=
  empty_response_spec emptyHelper rfl rfl rfl (Or.inl rfl)

/-- C7: `find(time)` is a linear lookup by exact timestamp equality — it
returns `none` exactly when no entry's timestamp equals the given string,
and any returned entry is a member of the list with that exact
timestamp. -/
theorem find_spec (l : List Entry) (time : String) :
    (VecEntry.find l time = none ↔ ∀ e ∈ l, e.time ≠ time) ∧
    (∀ e, VecEntry.find l time = some e → e ∈ l ∧ e.time = time) := by
  constructor
  · simp [VecEntry.find, List.find?_eq_none]
  · intro e hfind
    refine ⟨List.mem_of_find?_eq_some hfind, ?_⟩
    have := List.find?_some hfind
    simpa using this

/-- Witness for C7 at a concrete collection and timestamp. -/
theorem find_spec_witness :
    demoE2 ∈ demoEntries ∧ demoE2.time = "2020-01-02" :=
  (find_spec demoEntries "2020-01-02").2 demoE2 (by decide)

/-- An entry whose timestamp is the empty string but whose payload is
nonzero: its timestamp ties with the scan's starting default. -/
def cBad : Entry := { Entry.default with market_open := 1 }

/-- Counterexample to C4 as stated: in the nonempty collection `[cBad]`
the (unique) record with lexicographically maximal timestamp is `cBad`
itself, yet `latest()` does not return it — it returns the zero-valued
default record, because the scan starts from `Entry::default()` and only
replaces it on a strict timestamp increase. -/
theorem latest_claim_counterexample :
    (∀ e ∈ [cBad], strLeB e.time cBad.time = true) ∧
    VecEntry.latest [cBad] = Entry.default ∧
    VecEntry.latest [cBad] ≠ cBad := by
  refine ⟨by decide, by decide, by decide⟩

/-- C4 (amended): `latest()` on an empty collection returns the
zero-valued default record; on a collection containing at least one entry
with a timestamp lexicographically greater than the empty string, it
returns a copy of a member of the collection whose timestamp is
lexicographically maximal among all entries; if every entry's timestamp
is the empty string (tying with the scan's starting default) it returns
the zero-valued default record instead. -/
theorem latest_spec (l : List Entry) :
    (l = [] → VecEntry.latest l = Entry.default) ∧
    ((∃ e ∈ l, strLtB "" e.time = true) →
        VecEntry.latest l ∈ l ∧
        ∀ e ∈ l, strLeB e.time (VecEntry.latest l).time = true) ∧
    ((∀ e ∈ l, e.time = "") → VecEntry.latest l = Entry.default) := by
  refine ⟨?_, ?_, ?_⟩
  · intro hl; subst hl; rfl
  · intro hex
    obtain ⟨w, hwmem, hwlt⟩ := hex
    have hle := latest_fold_le l Entry.default
    have hmem := latest_fold_mem l Entry.default
    rcases hmem with hdef | hmem
    · exfalso
      have hw := hle.2 w hwmem
      rw [hdef] at hw
      have : strLeB w.time "" = true := hw
      rw [strLeB, hwlt] at this
      simp at this
    · exact ⟨hmem, (latest_fold_le l Entry.default).2⟩
  · exact latest_fold_default_of_empty_times l

/-- Witness for C4's amended theorem at a concrete two-entry collection. -/
theorem latest_spec_witness :
    VecEntry.latest demoEntries ∈ demoEntries ∧
    ∀ e ∈ demoEntries, strLeB e.time (VecEntry.latest demoEntries).time = true :=
  (latest_spec demoEntries).2.1 ⟨demoE1, by decide, by decide⟩

/-! ## C3: latest_n -/

instance instSortRelTotal : IsTotal String (fun a b => strLeB b a = true) :=
  ⟨fun a b => strLeB_total b a⟩

instance instSortRelTrans : IsTrans String (fun a b => strLeB b a = true) :=
  ⟨fun _ _ _ hab hbc => strLeB_trans hbc hab⟩

/-- Unfolding equation of `latest_n`. -/
theorem latest_n_def (l : List Entry) (n : Nat) :
    VecEntry.latest_n l n =
      if n > ((l.map Entry.time).insertionSort (fun a b => strLeB b a = true)).length then
        ConvOutcome.err (Error.DesiredNumberOfEntryNotPresent
          ((l.map Entry.time).insertionSort (fun a b => strLeB b a = true)).length)
      else
        match collectEntries l
            (((l.map Entry.time).insertionSort (fun a b => strLeB b a = true)).take n) with
        | some res => ConvOutcome.ok res
        | none => ConvOutcome.panicked := rfl

/-- When every requested time belongs to some entry, the lookup loop
succeeds and returns entries of the collection whose times are exactly the
requested ones. -/
theorem collectEntries_spec (l : List Entry) :
    ∀ ts : List String, (∀ t ∈ ts, ∃ e ∈ l, e.time = t) →
      ∃ res, collectEntries l ts = some res ∧ res.map Entry.time = ts ∧
        ∀ e ∈ res, e ∈ l := by
  intro ts
  induction ts with
  | nil => intro _; exact ⟨[], rfl, rfl, by intro e he; cases he⟩
  | cons t ts ih =>
    intro hall
    obtain ⟨e0, he0, ht0⟩ := hall t (List.mem_cons_self t ts)
    have hfind : ∃ e, VecEntry.find l t = some e := by
      cases hf : VecEntry.find l t with
      | some e => exact ⟨e, rfl⟩
      | none =>
        exfalso
        rw [VecEntry.find, List.find?_eq_none] at hf
        have := hf e0 he0
        simp [ht0] at this
    obtain ⟨e, he⟩ := hfind
    obtain ⟨res, hres, hmap, hmem⟩ :=
      ih (fun s hs => hall s (List.mem_cons_of_mem t hs))
    have htime : e.time = t := by
      rw [VecEntry.find] at he
      have := List.find?_some he
      simpa using this
    refine ⟨e :: res, ?_, ?_, ?_⟩
    · simp [collectEntries, he, hres]
    · simp [htime, hmap]
    · intro x hx
      rcases List.mem_cons.mp hx with hx | hx
      · subst hx
        rw [VecEntry.find] at he
        exact List.mem_of_find?_eq_some he
      · exact hmem x hx

/-- C3: `latest_n(n)` on a collection of size `k` returns, for `n ≤ k`,
exactly `n` records of the collection whose timestamps are in
non-increasing lexicographic order, and fails for `n > k` with the
"insufficient entries" error carrying the actual count `k`. -/
theorem latest_n_spec (l : List Entry) (n : Nat) :
    (n ≤ l.length →
      ∃ res, VecEntry.latest_n l n = ConvOutcome.ok res ∧ res.length = n ∧
        (res.map Entry.time).Pairwise (fun a b => strLeB b a = true) ∧
        ∀ e ∈ res, e ∈ l) ∧
    (l.length < n →
      VecEntry.latest_n l n =
        ConvOutcome.err (Error.DesiredNumberOfEntryNotPresent l.length)) := by
  have hlen : ((l.map Entry.time).insertionSort (fun a b => strLeB b a = true)).length
      = l.length := by simp
  constructor
  · intro hn
    have hmemts : ∀ t ∈ ((l.map Entry.time).insertionSort
        (fun a b => strLeB b a = true)).take n, ∃ e ∈ l, e.time = t := by
      intro t ht
      have h1 : t ∈ (l.map Entry.time).insertionSort (fun a b => strLeB b a = true) :=
        List.mem_of_mem_take ht
      have h2 : t ∈ l.map Entry.time := by
        rw [List.mem_insertionSort] at h1
        exact h1
      obtain ⟨e, he, heq⟩ := List.mem_map.mp h2
      exact ⟨e, he, heq⟩
    obtain ⟨res, hres, hmap, hmem⟩ := collectEntries_spec l _ hmemts
    refine ⟨res, ?_, ?_, ?_, hmem⟩
    · rw [latest_n_def, if_neg (by omega), hres]
    · have h1 : (res.map Entry.time).length = res.length := List.length_map res _
      rw [hmap, List.length_take, hlen] at h1
      rw [← h1]
      exact Nat.min_eq_left hn
    · rw [hmap]
      have hsorted : ((l.map Entry.time).insertionSort
          (fun a b => strLeB b a = true)).Pairwise (fun a b => strLeB b a = true) :=
        List.sorted_insertionSort _ _
      exact hsorted.sublist (List.take_sublist _ _)
  · intro hn
    rw [latest_n_def, if_pos (by omega), hlen]

/-- Witness for C3 at a concrete two-entry collection and `n = 2`. -/
theorem latest_n_spec_witness :
    ∃ res, VecEntry.latest_n demoEntries 2 = ConvOutcome.ok res ∧ res.length = 2 ∧
      (res.map Entry.time).Pairwise (fun a b => strLeB b a = true) ∧
      ∀ e ∈ res, e ∈ demoEntries :=
  (latest_n_spec demoEntries 2).1 (by decide)

/-! ## C5: the conversion is all-or-nothing — panic analysis -/

theorem applyMarketDatum_isSome (e : Entry) (kv : String × String)
    (h : (parseF64 kv.2).isSome) : ∃ e2, applyMarketDatum e kv = some e2 := by
  obtain ⟨v, hv⟩ := Option.isSome_iff_exists.mp h
  cases h1 : strContains kv.1 "1a" <;> cases h2 : strContains kv.1 "2a" <;>
    cases h3 : strContains kv.1 "3a" <;> cases h4 : strContains kv.1 "4a" <;>
    simp [applyMarketDatum, hv, h1, h2, h3, h4]

theorem foldl_applyMarketDatum_isSome :
    ∀ (md : List (String × String)) (e : Entry),
      (∀ kv ∈ md, (parseF64 kv.2).isSome) →
      ∃ e2, md.foldl (fun acc kv => acc.bind fun x => applyMarketDatum x kv)
        (some e) = some e2 := by
  intro md
  induction md with
  | nil => intro e _; exact ⟨e, rfl⟩
  | cons kv md ih =>
    intro e hall
    obtain ⟨e1, he1⟩ :=
      applyMarketDatum_isSome e kv (hall kv (List.mem_cons_self kv md))
    rw [List.foldl_cons]
    have hbind : (some e).bind (fun x => applyMarketDatum x kv) = some e1 := by
      simpa using he1
    rw [hbind]
    exact ih e1 fun p hp => hall p (List.mem_cons_of_mem kv hp)

theorem convertEntry_isSome (t : String) (eh : EntryHelper)
    (h : ∀ kv ∈ eh.market_data, (parseF64 kv.2).isSome) :
    ∃ e, convertEntry t eh = some e := by
  rw [convertEntry]
  exact foldl_applyMarketDatum_isSome eh.market_data _ h

theorem convertInner_isSome :
    ∀ inner : List (String × EntryHelper),
      (∀ q ∈ inner, ∀ kv ∈ q.2.market_data, (parseF64 kv.2).isSome) →
      ∃ es, convertInner inner = some es := by
  intro inner
  induction inner with
  | nil => exact fun _ => ⟨[], rfl⟩
  | cons q rest ih =>
    intro hall
    obtain ⟨e, he⟩ :=
      convertEntry_isSome q.1 q.2 (hall q (List.mem_cons_self q rest))
    obtain ⟨es, hes⟩ := ih fun p hp => hall p (List.mem_cons_of_mem q hp)
    refine ⟨e :: es, ?_⟩
    rw [convertInner]
    simp only [he, hes]

theorem convertAll_isSome :
    ∀ outer : List (String × List (String × EntryHelper)),
      (∀ p ∈ outer, ∀ q ∈ p.2, ∀ kv ∈ q.2.market_data, (parseF64 kv.2).isSome) →
      ∃ es, convertAll outer = some es := by
  intro outer
  induction outer with
  | nil => exact fun _ => ⟨[], rfl⟩
  | cons p rest ih =>
    intro hall
    obtain ⟨es1, hes1⟩ :=
      convertInner_isSome p.2 (hall p (List.mem_cons_self p rest))
    obtain ⟨es2, hes2⟩ := ih fun x hx => hall x (List.mem_cons_of_mem p hx)
    refine ⟨es1 ++ es2, ?_⟩
    rw [convertAll]
    simp only [hes1, hes2]

/-- A helper record carrying a non-numeric flattened market-data value. -/
def panicEH : EntryHelper :=
  { open_usd := 0, high_usd := 0, low_usd := 0, close_usd := 0, volume := 0,
    market_cap := 0, market_data := [("1a. open (CNY)", "abc")] }

/-- A full, sentinel-free helper payload whose only flaw is one
non-numeric market-data string. -/
def panicHelper : CryptoHelper :=
  { information := none, error_message := none, note := none,
    meta_data := some sampleMeta,
    entry := some [("Time Series (Digital Currency Daily)",
                    [("2020-01-01", panicEH)])] }

/-- Counterexample to C5 as stated: the decode pipeline is not panic-free
for every helper payload — on a payload whose market-data value `"abc"`
does not parse as a number, `convert` runs `f64::from_str("abc").unwrap()`
and panics instead of returning a struct or a typed error. -/
theorem convert_panic_counterexample :
    panicHelper.convert = ConvOutcome.panicked := by decide

/-- C5 (amended): for every helper payload whose flattened market-data
values all parse as numbers, the conversion is all-or-nothing — it returns
either exactly one public struct or a typed error, never a panic and never
a partial result; in particular a body with `"Error Message": "Invalid API
call"` and no payload section fails with the rejection error carrying that
exact message, not a panic or an empty-response error. A payload with a
non-numeric market-data value, however, panics. -/
theorem convert_no_panic_spec :
    (∀ h : CryptoHelper,
        (∀ p ∈ h.entry.getD [], ∀ q ∈ p.2, ∀ kv ∈ q.2.market_data,
          (parseF64 kv.2).isSome) →
        (∃ c, h.convert = ConvOutcome.ok c) ∨
          (∃ e, h.convert = ConvOutcome.err e)) ∧
    (∀ h : CryptoHelper, h.error_message = some "Invalid API call" →
        h.meta_data = none → h.entry = none →
        h.convert = ConvOutcome.err (Error.ErrorMessage "Invalid API call")) := by
  constructor
  · intro h hall
    cases hdet : detect_common_helper_error h.information h.error_message h.note with
    | error e =>
      refine Or.inr ⟨e, ?_⟩
      simp [CryptoHelper.convert, hdet]
    | ok u =>
      cases hm : h.meta_data with
      | none =>
        refine Or.inr ⟨Error.EmptyResponse, ?_⟩
        simp [CryptoHelper.convert, hdet, hm]
      | some md =>
        cases hen : h.entry with
        | none =>
          refine Or.inr ⟨Error.EmptyResponse, ?_⟩
          simp [CryptoHelper.convert, hdet, hm, hen]
        | some ent =>
          rw [hen] at hall
          obtain ⟨es, hes⟩ := convertAll_isSome ent (by simpa using hall)
          refine Or.inl ⟨{ meta_data := md, entry := es }, ?_⟩
          simp [CryptoHelper.convert, hdet, hm, hen, hes]
  · intro h hmsg _ _
    simp [CryptoHelper.convert, detect_common_helper_error, hmsg]

/-- Witness for C5's amended theorem at the sample payload, whose
market-data values all parse. -/
theorem convert_no_panic_witness :
    (∃ c, sampleHelper.convert = ConvOutcome.ok c) ∨
      (∃ e, sampleHelper.convert = ConvOutcome.err e) :=
  convert_no_panic_spec.1 sampleHelper (by decide)

/-- C8: the formatted URL uses the fixed upstream function token determined
solely by the enum variant, together with the symbol and market parameters;
in direct-provider mode the API key is appended as the `apikey` query
parameter, while in proxied mode the URL carries no key and the key travels
in the `x-rapidapi-key` header next to the fixed host header. -/
theorem create_url_spec (symbol market api : String) :
    create_url CryptoFunction.Daily symbol market =
      "query?function=DIGITAL_CURRENCY_DAILY&symbol=" ++ symbol ++
        "&market=" ++ market ∧
    create_url CryptoFunction.Weekly symbol market =
      "query?function=DIGITAL_CURRENCY_WEEKLY&symbol=" ++ symbol ++
        "&market=" ++ market ∧
    create_url CryptoFunction.Monthly symbol market =
      "query?function=DIGITAL_CURRENCY_MONTHLY&symbol=" ++ symbol ++
        "&market=" ++ market ∧
    (∀ f, requestFor Provider.AlphaVantage api (create_url f symbol market) =
      { url := BASE_URL ++ create_url f symbol market ++ "&apikey=" ++ api,
        headers := [] }) ∧
    (∀ f, requestFor Provider.RapidAPI api (create_url f symbol market) =
      { url := RAPID_API_BASE_URL ++ create_url f symbol market,
        headers := [("x-rapidapi-host", "alpha-vantage.p.rapidapi.com"),
                    ("x-rapidapi-key", api)] }) :=
  ⟨rfl, rfl, rfl, fun _ => rfl, fun _ => rfl⟩

/-- C9: the sample body with records `2020-01-01` and `2020-01-02` converts
to exactly two records whose rational fields equal the values denoted by
the numeric strings, and `latest()` on the resulting list returns the
`2020-01-02` record. -/
theorem round_trip_spec :
    sampleHelper.convert = ConvOutcome.ok sampleCrypto ∧
    sampleCrypto.entry.length = 2 ∧
    sampleCrypto.entry.map Entry.time = ["2020-01-01", "2020-01-02"] ∧
    VecEntry.latest sampleCrypto.entry = sampleEntry2 ∧
    sampleEntry2.time = "2020-01-02" ∧
    sampleEntry1.usd_open = 100.5 ∧ sampleEntry1.usd_high = 101.25 ∧
    sampleEntry1.usd_low = 99.75 ∧ sampleEntry1.usd_close = 100 ∧
    sampleEntry1.volume = 1000.5 ∧ sampleEntry1.market_cap = 2000.25 ∧
    sampleEntry1.market_open = 700.5 ∧ sampleEntry1.market_high = 710.25 ∧
    sampleEntry1.market_low = 690.75 ∧ sampleEntry1.market_close = 705.5 ∧
    sampleEntry2.usd_open = 100 ∧ sampleEntry2.usd_high = 102.5 ∧
    sampleEntry2.usd_low = 98.25 ∧ sampleEntry2.usd_close = 101.75 ∧
    sampleEntry2.volume = 1500.25 ∧ sampleEntry2.market_cap = 3000.5 ∧
    sampleEntry2.market_open = 705.5 ∧ sampleEntry2.market_high = 715.25 ∧
    sampleEntry2.market_low = 688.5 ∧ sampleEntry2.market_close = 709.75 := by
  refine ⟨by decide, by decide, by decide, by decide, rfl, ?_, ?_, ?_, ?_, ?_, ?_,
    ?_, ?_, ?_, ?_, ?_, ?_, ?_, ?_, ?_, ?_, ?_, ?_, ?_, ?_⟩ <;>
    simp only [sampleEntry1, sampleEntry2, Rat.mkRat_eq_div] <;> norm_num

/-- C10: a client built by `set_api` or `set_rapid_api` stores the
credential unchanged, and `get_api_key` (resp. `get_api` on the older
`APIKey`) returns exactly it; the model has no operation mutating it. -/
theorem api_key_roundtrip (C : Type) (k : String) (c : C) :
    (ApiClient.set_api k c).get_api_key = k ∧
    (ApiClient.set_rapid_api k c).get_api_key = k ∧
    (APIKey.set_api k).get_api = k :=
  ⟨rfl, rfl, rfl⟩
